import Mathlib

/-!
Shallow embedding of the `robo-path-planner` repository (Rust) in Lean 4.

Source files embedded: `src/playground.rs`, `src/planner.rs` (the live planner;
`src/actor.rs` is an identical historical snapshot of the same functions) and the
constants visible from `src/main.rs`.

Modelling conventions:
* Rust `i32` values are modelled as `Int` (no arithmetic in the repository
  approaches the `i32` range, so wraparound is not modelled).
* Rust `f64` values are modelled as `ℝ`; the `as i32` cast (truncation toward
  zero) is `rtrunc` below.
* The third-party `quadtree_rs` store (`Quadtree::new(16)`) is modelled by a
  list of the stored rectangles: per its documentation the tree spans the
  region `[0, 2^16)²` anchored at the origin, and `insert` stores a region
  verbatim when it fits inside that span and otherwise returns `None` and
  stores nothing.  A query reports the stored regions that strictly overlap
  the query region (axis-aligned half-open rectangle intersection).
-/

/-- `Rect` from `src/playground.rs`: `anchor` is the top-left corner,
`size` is `(width, height)`. -/
structure Rect where
  anchor : Int × Int
  size : Int × Int
deriving DecidableEq, Repr

/-- Strict axis-aligned overlap of two rectangles, as used by the
`quadtree_rs` range query backing `Playground::is_collision` (regions that
merely touch along an edge do not overlap). -/
def rectIntersects (a b : Rect) : Bool :=
  decide (a.anchor.1 < b.anchor.1 + b.size.1) &&
  decide (b.anchor.1 < a.anchor.1 + a.size.1) &&
  decide (a.anchor.2 < b.anchor.2 + b.size.2) &&
  decide (b.anchor.2 < a.anchor.2 + a.size.2)

/-- The span of `Quadtree::new(16)` used by `Playground`: `[0, 2^16)` on each
axis. -/
def quadtreeSide : Int := 2 ^ 16

/-- Whether a rectangle fits inside the quadtree's span, i.e. whether
`quadtree_rs`'s `insert` actually stores it (its documented behavior: the
insertion is dropped when the region does not fit in the tree's region). -/
def quadtreeFits (r : Rect) : Bool :=
  decide (0 ≤ r.anchor.1) && decide (0 ≤ r.anchor.2) &&
  decide (r.anchor.1 + r.size.1 ≤ quadtreeSide) &&
  decide (r.anchor.2 + r.size.2 ≤ quadtreeSide)

/-- `Playground` from `src/playground.rs`.  The quadtree of obstacles is
modelled by the list of stored rectangles (insertion order). -/
structure Playground where
  size : Int × Int
  obstacles : List Rect
  obstacle_counter : Nat
  start : Int × Int
  goal : Int × Int
deriving DecidableEq, Repr

/-- `Playground::new` from `src/playground.rs` (lines 21-29): takes only the
bounds and derives `start` and `goal` from them. -/
def Playground.new (size : Int × Int) : Playground :=
  { size := size
    obstacles := []
    obstacle_counter := 0
    start := (Int.tdiv size.1 16, Int.tdiv size.2 16)
    goal := (Int.tdiv (15 * size.1) 16, Int.tdiv size.2 16) }

/-- `Playground::add_obstacles`: inserts the rectangle into the quadtree
(stored verbatim when it fits the tree's span, silently dropped otherwise)
and bumps the id counter either way. -/
def Playground.add_obstacles (p : Playground) (o : Rect) : Playground :=
  { p with
    obstacles := if quadtreeFits o then p.obstacles ++ [o] else p.obstacles
    obstacle_counter := p.obstacle_counter + 1 }

/-- `Playground::get_obstacles`: returns the stored rectangles, anchor and
size verbatim. -/
def Playground.get_obstacles (p : Playground) : List Rect :=
  p.obstacles

/-- `Playground::is_collision` (lines 60-79): out-of-bounds check (strict
`< 0` on the lower side, `>=` the bound on the upper side), then a quadtree
range query against the stored obstacles. -/
def Playground.is_collision (p : Playground) (r : Rect) : Bool :=
  if r.anchor.1 < 0 ∨ r.anchor.2 < 0 ∨
     p.size.1 ≤ r.anchor.1 + r.size.1 ∨ p.size.2 ≤ r.anchor.2 + r.size.2 then
    true
  else
    p.obstacles.any (fun o => rectIntersects r o)

/-- The out-of-bounds clause exactly as the spec words it: an edge lying
exactly on the lower bound 0 counts as out of bounds, and touching or
exceeding the upper bound counts as out of bounds. -/
def spec_out_of_bounds (p : Playground) (r : Rect) : Bool :=
  decide (r.anchor.1 ≤ 0) || decide (r.anchor.2 ≤ 0) ||
  decide (p.size.1 ≤ r.anchor.1 + r.size.1) || decide (p.size.2 ≤ r.anchor.2 + r.size.2)

/-- The world of §8's collision tests: size (500,500) with one obstacle
anchored at (100,100) sized (300,300), built through `add_obstacles`. -/
def pg500 : Playground :=
  (Playground.new (500, 500)).add_obstacles ⟨(100, 100), (300, 300)⟩

/-- `Pose` from `src/planner.rs`: integer coordinates, heading in degrees. -/
structure Pose where
  x : Int
  y : Int
  t : Int
deriving DecidableEq, Repr

section SplineModel

variable {K : Type} [LinearOrderedField K]

/-- Linear interpolation `a.lerp b nt` of the `splines` crate:
`a * (1 - nt) + b * nt`. -/
def lerp (a b nt : K) : K := a * (1 - nt) + b * nt

/-- `Spline::sample` of the `splines` crate for keys sorted by time and
`Interpolation::Linear`: locate the window `[k_i, k_{i+1})` containing `t`
and interpolate linearly inside it; `none` when `t` is below the first key,
at or beyond the last key, or fewer than two keys exist. -/
def spline_sample : List (K × K) → K → Option K
  | (k0, v0) :: (k1, v1) :: rest, t =>
    if t < k0 then none
    else if t < k1 then some (lerp v0 v1 ((t - k0) / (k1 - k0)))
    else spline_sample ((k1, v1) :: rest) t
  | _, _ => none

/-- `Spline::clamped_sample` of the `splines` crate: `sample`, falling back
to the first key's value for `t` at or below the first key and to the last
key's value for `t` at or beyond the last key. -/
def clamped_sample : List (K × K) → K → Option K
  | [], _ => none
  | kv :: rest, t =>
    match spline_sample (kv :: rest) t with
    | some v => some v
    | none =>
      if t ≤ kv.1 then some kv.2
      else if ((kv :: rest).getLast (List.cons_ne_nil kv rest)).1 ≤ t then
        some ((kv :: rest).getLast (List.cons_ne_nil kv rest)).2
      else none

end SplineModel

/-- `Planner::euclid_dist` (lines 167-171): Euclidean distance over (x,y)
only, heading ignored. -/
noncomputable def euclid_dist (a b : Pose) : ℝ :=
  Real.sqrt (((a.x - b.x : Int) : ℝ) ^ 2 + ((a.y - b.y : Int) : ℝ) ^ 2)

/-- The key/value pairs that `Planner::build_spline`'s loop pushes for one
coordinate `f` of the poses, with `d` the cumulative distance accumulated so
far: one key per waypoint, keyed by cumulative `euclid_dist`. -/
noncomputable def build_keys (f : Pose → ℝ) : List Pose → ℝ → List (ℝ × ℝ)
  | [], _ => []
  | [p], d => [(d, f p)]
  | p :: q :: rest, d => (d, f p) :: build_keys f (q :: rest) (d + euclid_dist p q)

/-- `Planner::build_spline` (lines 64-86): three curves (x, y, heading),
each keyed by cumulative Euclidean (x,y) distance starting at 0, linear
interpolation.  The `Spline::from_vec` sort of the crate is the identity
here because the keys are emitted in non-decreasing order. -/
noncomputable def build_spline (path : List Pose) :
    List (ℝ × ℝ) × List (ℝ × ℝ) × List (ℝ × ℝ) :=
  (build_keys (fun p => (p.x : ℝ)) path 0,
   build_keys (fun p => (p.y : ℝ)) path 0,
   build_keys (fun p => (p.t : ℝ)) path 0)

/-- Rust's `as i32` cast from `f64`: truncation toward zero. -/
noncomputable def rtrunc (x : ℝ) : Int := if 0 ≤ x then ⌊x⌋ else ⌈x⌉

/-- Rust's `f64::to_radians`: multiply by `π / 180`. -/
noncomputable def degToRad (t : Int) : ℝ := (t : ℝ) * (Real.pi / 180)

/-- The single hitbox `Planner::is_valid_pose` builds (lines 196-210): the
axis-aligned bounding rectangle of the footprint rotated by the heading,
centered on the pose. -/
noncomputable def pose_hitboxes (size : Int × Int) (pose : Pose) : List Rect :=
  let t := degToRad pose.t
  let xs := rtrunc (|(size.1 : ℝ) * Real.cos t| + |(size.2 : ℝ) * Real.sin t|)
  let ys := rtrunc (|(size.1 : ℝ) * Real.sin t| + |(size.2 : ℝ) * Real.cos t|)
  [{ anchor := (pose.x - Int.tdiv xs 2, pose.y - Int.tdiv ys 2), size := (xs, ys) }]

/-- `Planner::is_valid_pose` (lines 196-217): build the hitbox list and
return `false` as soon as one hitbox collides, `true` otherwise. -/
noncomputable def is_valid_pose (size : Int × Int) (pg : Playground) (pose : Pose) : Bool :=
  (pose_hitboxes size pose).all (fun hb => !(pg.is_collision hb))

/-- Modelled from the spec: §4.2's `is_pose_valid` contract —
`bw = |w·cos θ| + |h·sin θ|`, `bh = |w·sin θ| + |h·cos θ|`, anchor at
`(x - bw/2, y - bh/2)`, return `not query_collision(that rectangle)`.
Integer quantization (`rtrunc`, truncating halves of the division) is
imposed by the integer-valued `Rectangle` data model of §3. -/
noncomputable def is_valid_pose_spec (size : Int × Int) (pg : Playground) (pose : Pose) : Bool :=
  let θ := degToRad pose.t
  let bw := rtrunc (|(size.1 : ℝ) * Real.cos θ| + |(size.2 : ℝ) * Real.sin θ|)
  let bh := rtrunc (|(size.1 : ℝ) * Real.sin θ| + |(size.2 : ℝ) * Real.cos θ|)
  !(pg.is_collision
      { anchor := (pose.x - Int.tdiv bw 2, pose.y - Int.tdiv bh 2), size := (bw, bh) })

/-- `Planner::is_valid_path` (lines 173-194): conservative swept rectangle
between two poses — per-endpoint bounding box dimensions, element-wise max,
spanning the translation between the poses. -/
noncomputable def is_valid_path (size : Int × Int) (pg : Playground) (f t : Pose) : Bool :=
  let ft := degToRad f.t
  let tt := degToRad t.t
  let xs := max (rtrunc (|(size.1 : ℝ) * Real.cos ft| + |(size.2 : ℝ) * Real.sin ft|))
                (rtrunc (|(size.1 : ℝ) * Real.cos tt| + |(size.2 : ℝ) * Real.sin tt|))
  let ys := max (rtrunc (|(size.1 : ℝ) * Real.sin ft| + |(size.2 : ℝ) * Real.cos ft|))
                (rtrunc (|(size.1 : ℝ) * Real.sin tt| + |(size.2 : ℝ) * Real.cos tt|))
  !(pg.is_collision
      { anchor := (min f.x t.x - Int.tdiv xs 2, min f.y t.y - Int.tdiv ys 2)
        size := (|f.x - t.x| + xs, |f.y - t.y| + ys) })

/-- Interior elements pushed by `Planner::compact_path`'s loop: `last` is the
last accumulated waypoint, `prev` is `path[i-1]`, the list is `path[i..]`.
When the edge from `last` to `path[i]` is not valid, `path[i-1]` is pushed
and becomes the new last accumulated waypoint. -/
def compactAux (valid : Pose → Pose → Bool) : Pose → Pose → List Pose → List Pose
  | _, _, [] => []
  | last, prev, c :: rest =>
    if valid last c then compactAux valid last c rest
    else prev :: compactAux valid prev c rest

/-- `Planner::compact_path` (lines 88-98) with the edge-validity check
abstracted: seed the accumulator with `path[0]`, scan from `path[2]` on,
append the final waypoint; `none` models the `path[0]` panic on an empty
input (a one-element input yields `[p, p]`, exactly as the source does). -/
def compactPathWith (valid : Pose → Pose → Bool) : List Pose → Option (List Pose)
  | [] => none
  | [p] => some [p, p]
  | p0 :: p1 :: rest =>
    some (p0 :: (compactAux valid p0 p1 rest ++
      [(p1 :: rest).getLast (List.cons_ne_nil p1 rest)]))

/-- Association-list lookup modelling `HashMap` key lookup on poses. -/
def alookup (m : List (Pose × Pose)) (k : Pose) : Option Pose :=
  match m with
  | [] => none
  | (a, b) :: rest => if a = k then some b else alookup rest k

/-- The `nearest` scan of `Planner::rrt_to_goal` (lines 132-142): fold over
the visited poses keeping the strictly closest one whose connecting edge is
valid, seeded with the bound `size.0 + size.1`. -/
def nearest_scan {K : Type} [LinearOrder K] (validPath : Pose → Pose → Bool)
    (d : Pose → Pose → K) (cand : Pose) (keys : List Pose) (bound : K) :
    Option Pose × K :=
  keys.foldl
    (fun acc c =>
      if acc.2 ≤ d cand c ∨ validPath cand c = false then acc
      else (some c, d cand c))
    (none, bound)

/-- State of the random-tree growth: the visited-to-parent map (insertion
order) and whether the goal has been inserted (the loop's `break`). -/
structure RRTState where
  map : List (Pose × Pose)
  found : Bool
deriving DecidableEq, Repr

/-- One iteration of `Planner::rrt_to_goal`'s loop (lines 119-153) for a
sampled candidate pose: skip if already visited or invalid, find the nearest
visited pose with a valid connecting edge, insert `candidate -> nearest`,
stop when the candidate is the goal. -/
def rrt_step {K : Type} [LinearOrder K] (validPose : Pose → Bool)
    (validPath : Pose → Pose → Bool) (d : Pose → Pose → K) (bound : K)
    (goal : Pose) (s : RRTState) (cand : Pose) : RRTState :=
  if s.found then s
  else if (alookup s.map cand).isSome ∨ validPose cand = false then s
  else
    match (nearest_scan validPath d cand (s.map.map Prod.fst) bound).1 with
    | none => s
    | some n => ⟨s.map ++ [(cand, n)], decide (cand = goal)⟩

/-- The random-tree growth over a finite stream of sampled candidate poses
(the random sampling of the source is the stream), seeded with the
self-parented root `{start: start}`. -/
def rrt_run {K : Type} [LinearOrder K] (validPose : Pose → Bool)
    (validPath : Pose → Pose → Bool) (d : Pose → Pose → K) (bound : K)
    (start goal : Pose) (cands : List Pose) : RRTState :=
  cands.foldl (rrt_step validPose validPath d bound goal) ⟨[(start, start)], false⟩

/-- The invariants C7 claims of the visited-to-parent map: the start is
present and self-parented, keys are never inserted twice, and every
non-start key maps to a pose different from itself. -/
def RRTInv (start : Pose) (s : RRTState) : Prop :=
  alookup s.map start = some start ∧
  (s.map.map Prod.fst).Nodup ∧
  ∀ kv ∈ s.map, kv.1 ≠ start → kv.1 ≠ kv.2

/-- The back-pointer walk of `Planner::rrt_to_goal` (lines 155-162): collect
poses from the goal until the self-parented root, in goal-to-start order;
`none` models a missing key (the source's indexing panic) or a parent cycle
(the source's infinite loop). -/
def walk_parents (m : List (Pose × Pose)) : Nat → Pose → Option (List Pose)
  | 0, _ => none
  | fuel + 1, x =>
    match alookup m x with
    | none => none
    | some p => if p = x then some [x] else (walk_parents m fuel p).map (fun l => x :: l)

/-- `Planner` from `src/planner.rs`. -/
structure Planner where
  pose : Pose
  size : Int × Int
  path : List Pose
  splines : Option (List (ℝ × ℝ) × List (ℝ × ℝ) × List (ℝ × ℝ))

/-- `Planner::new` (lines 27-38). -/
def Planner.new (playground : Playground) : Planner :=
  { pose := ⟨playground.start.1, playground.start.2, 0⟩
    size := (15, 30)
    path := []
    splines := none }

/-- The visited-to-parent map grown by `Planner::rrt_to_goal` for a given
stream of sampled candidates, at the planner's instantiation of the
validity checks, distance and bound. -/
noncomputable def Planner.rrt_visited (pl : Planner) (pg : Playground)
    (cands : List Pose) : List (Pose × Pose) :=
  (rrt_run (is_valid_pose pl.size pg) (is_valid_path pl.size pg) euclid_dist
    ((pg.size.1 + pg.size.2 : Int) : ℝ)
    ⟨pg.start.1, pg.start.2, 0⟩ ⟨pg.goal.1, pg.goal.2, 0⟩ cands).map

/-- `Planner::rrt_to_goal` (lines 101-165): grow the tree until the goal is
inserted, then walk the parent pointers back and reverse into start-to-goal
order. -/
noncomputable def Planner.rrt_to_goal (pl : Planner) (pg : Playground)
    (cands : List Pose) : Option (List Pose) :=
  let s := rrt_run (is_valid_pose pl.size pg) (is_valid_path pl.size pg) euclid_dist
    ((pg.size.1 + pg.size.2 : Int) : ℝ)
    ⟨pg.start.1, pg.start.2, 0⟩ ⟨pg.goal.1, pg.goal.2, 0⟩ cands
  if s.found then
    (walk_parents s.map (s.map.length + 1) ⟨pg.goal.1, pg.goal.2, 0⟩).map List.reverse
  else none

/-- `Planner::compact_path` at the planner's edge-validity check. -/
noncomputable def Planner.compact_path (pl : Planner) (pg : Playground)
    (path : List Pose) : Option (List Pose) :=
  compactPathWith (is_valid_path pl.size pg) path

/-- `Planner::compute_path` (lines 40-47): plan-once — when the splines
already exist nothing happens; otherwise find a path, compact it, build the
splines and store both. -/
noncomputable def Planner.compute_path (pl : Planner) (pg : Playground)
    (cands : List Pose) : Option Planner :=
  if pl.splines.isSome then some pl
  else
    match pl.rrt_to_goal pg cands with
    | none => none
    | some path =>
      match pl.compact_path pg path with
      | none => none
      | some cpath =>
        some { pl with splines := some (build_spline cpath), path := cpath }

/-- The playback speed constant of `Planner::update_pos`. -/
def PIXELS_PER_SEC : ℝ := 24

/-- `Planner::update_pos` (lines 49-62): no trajectory — do nothing;
otherwise sample all three curves at `t · speed` with clamping and assemble
the pose (`none` models the `unwrap` panic on an empty spline). -/
noncomputable def Planner.update_pos (pl : Planner) (t : ℝ) : Option Planner :=
  let s := t * PIXELS_PER_SEC
  match pl.splines with
  | none => some pl
  | some (sx, sy, st) =>
    match clamped_sample sx s, clamped_sample sy s, clamped_sample st s with
    | some x, some y, some th => some { pl with pose := ⟨rtrunc x, rtrunc y, rtrunc th⟩ }
    | _, _, _ => none

/-- The §8 trajectory-exactness example path `[(0,0,0°), (100,0,128°)]`. -/
def pathEx : List Pose := [⟨0, 0, 0⟩, ⟨100, 0, 128⟩]

/-- Modelled from the spec: §4.4's drive move of GridSearchPlanner —
translate by a fixed distance along the current heading (the whole
GridSearchPlanner is absent from `src/`; per §2 the rest of the repository
is historical snapshots and rendering glue). -/
noncomputable def grid_drive (dist : Int) (p : Pose) : Pose :=
  ⟨p.x + rtrunc ((dist : ℝ) * Real.cos (degToRad p.t)),
   p.y + rtrunc ((dist : ℝ) * Real.sin (degToRad p.t)), p.t⟩

/-- Modelled from the spec: §4.4's move set — forward step, backward step
(the same translation, negated), turn-right step (+fixed degrees),
turn-left step (−fixed degrees). -/
noncomputable def grid_moves (dist turn : Int) (p : Pose) : List Pose :=
  [grid_drive dist p, grid_drive (-dist) p,
   ⟨p.x, p.y, p.t + turn⟩, ⟨p.x, p.y, p.t - turn⟩]

/-- Modelled from the spec: the four successors of a pose, each
independently validity-checked via the pose-validity predicate. -/
noncomputable def grid_successors (valid : Pose → Bool) (dist turn : Int)
    (p : Pose) : List Pose :=
  (grid_moves dist turn p).filter valid

/-- Modelled from the spec: §4.4's heuristic — Euclidean distance in (x,y)
plus the heading difference divided by the turn step size, combined in
quadrature, cast to integer. -/
noncomputable def grid_heuristic (turn : Int) (p goal : Pose) : Int :=
  rtrunc (Real.sqrt (((p.x - goal.x : Int) : ℝ) ^ 2 + ((p.y - goal.y : Int) : ℝ) ^ 2 +
    ((Int.tdiv (p.t - goal.t) turn : Int) : ℝ) ^ 2))

/-- Pop an element minimizing `f` from a list (the priority-queue pop of the
best-first search; the earliest minimum wins ties). -/
def popMin {α : Type} (f : α → Int) : List α → Option (α × List α)
  | [] => none
  | x :: xs =>
    match popMin f xs with
    | none => some (x, xs)
    | some (y, rest) => if f y < f x then some (y, x :: rest) else some (x, xs)

/-- Modelled from the spec: walk the parent pointers from a pose down toward
the start, collecting the poses strictly above the start. -/
def grid_walk (parents : List (Pose × Pose)) (start : Pose) :
    Nat → Pose → List Pose
  | 0, _ => []
  | fuel + 1, p =>
    if p = start then []
    else
      match alookup parents p with
      | none => [p]
      | some q => p :: grid_walk parents start fuel q

/-- Modelled from the spec: path reconstruction — parent-pointer walk with
the start explicitly appended, returned in ascending start-to-goal order. -/
def grid_reconstruct (parents : List (Pose × Pose)) (start : Pose)
    (fuel : Nat) (p : Pose) : List Pose :=
  (grid_walk parents start fuel p ++ [start]).reverse

/-- Modelled from the spec: §4.4's best-first loop — pop the frontier entry
`(true_cost, pose, via)` minimizing `true_cost + heuristic`; a pose is
finalized (its parent fixed) the first time it is popped and duplicate pops
are discarded; when a popped pose's heuristic distance to the goal falls
under the threshold, reconstruct and return the path; an emptied frontier is
the typed no-path outcome (`none`). -/
noncomputable def grid_search (valid : Pose → Bool) (dist turn tol : Int)
    (goal start : Pose) :
    Nat → List (Int × Pose × Pose) → List (Pose × Pose) → Option (List Pose)
  | 0, _, _ => none
  | fuel + 1, frontier, parents =>
    match popMin (fun e => e.1 + grid_heuristic turn e.2.1 goal) frontier with
    | none => none
    | some (e, rest) =>
      if (alookup parents e.2.1).isSome then
        grid_search valid dist turn tol goal start fuel rest parents
      else
        if grid_heuristic turn e.2.1 goal < tol then
          some (grid_reconstruct (parents ++ [(e.2.1, e.2.2)]) start
            (parents.length + 1) e.2.1)
        else
          grid_search valid dist turn tol goal start fuel
            (rest ++ (grid_successors valid dist turn e.2.1).map
              (fun q => (e.1 + 1, q, e.2.1)))
            (parents ++ [(e.2.1, e.2.2)])

/-! ## Theorems -/

/-- C9: `Playground::new` does not take start and goal as parameters — it
takes only the bounds and derives both.  For bounds (800,800) it produces
start (50,50) and goal (750,50); the goal (750,750) that the repository's
own tests and `main.rs` pass to a three-argument constructor is not
producible: the derived goal's y-coordinate is always `size.y / 16`. -/
theorem playground_new_derives_start_goal :
    (Playground.new (800, 800)).start = (50, 50) ∧
    (Playground.new (800, 800)).goal = (750, 50) ∧
    (Playground.new (800, 800)).goal ≠ (750, 750) ∧
    ∀ size : Int × Int, (Playground.new size).goal.2 = Int.tdiv size.2 16 := by
  refine ⟨by decide, by decide, by decide, fun size => rfl⟩

/-- C1 (counterexample): the spec's out-of-bounds clause says an edge lying
exactly on the lower bound 0 is out of bounds, but `is_collision` uses a
strict `< 0` check: in the §8 world, the rectangle anchored (0,0) sized
(20,20) touches the lower bound yet `is_collision` returns `false`, so the
claimed biconditional fails there. -/
theorem is_collision_spec_iff_fails_at_zero :
    ¬ (pg500.is_collision ⟨(0, 0), (20, 20)⟩ = true ↔
        (spec_out_of_bounds pg500 ⟨(0, 0), (20, 20)⟩ = true ∨
          ∃ o ∈ pg500.obstacles, rectIntersects ⟨(0, 0), (20, 20)⟩ o = true)) := by
  decide

/-- C1 (amended): `is_collision` returns `true` iff some edge of the query
rectangle lies strictly outside the lower bound 0 (`anchor < 0`) or touches
or exceeds the upper bound (`anchor + size ≥ bound`), or the rectangle's
region intersects some stored obstacle's region; and the four §8 examples
hold: in a (500,500) world with one obstacle at (100,100) sized (300,300),
the rectangle at (10,10) sized (20,20) is collision-free, at (50,50) sized
(100,100) collides, at (-10,-10) sized (20,20) collides, and at (450,450)
sized (100,100) collides. -/
theorem is_collision_iff :
    (∀ (p : Playground) (r : Rect),
        p.is_collision r = true ↔
          (r.anchor.1 < 0 ∨ r.anchor.2 < 0 ∨
            p.size.1 ≤ r.anchor.1 + r.size.1 ∨ p.size.2 ≤ r.anchor.2 + r.size.2 ∨
            ∃ o ∈ p.obstacles, rectIntersects r o = true)) ∧
    pg500.is_collision ⟨(10, 10), (20, 20)⟩ = false ∧
    pg500.is_collision ⟨(50, 50), (100, 100)⟩ = true ∧
    pg500.is_collision ⟨(-10, -10), (20, 20)⟩ = true ∧
    pg500.is_collision ⟨(450, 450), (100, 100)⟩ = true := by
  refine ⟨fun p r => ?_, by decide, by decide, by decide, by decide⟩
  unfold Playground.is_collision
  by_cases h : r.anchor.1 < 0 ∨ r.anchor.2 < 0 ∨
      p.size.1 ≤ r.anchor.1 + r.size.1 ∨ p.size.2 ≤ r.anchor.2 + r.size.2
  · rw [if_pos h]
    simp only [true_iff]
    tauto
  · rw [if_neg h, List.any_eq_true]
    push_neg at h
    constructor
    · intro hex
      tauto
    · intro hor
      rcases hor with h1 | h2 | h3 | h4 | hex
      · omega
      · omega
      · omega
      · omega
      · exact hex

/-- C5 (counterexample): the round-trip does not hold for *every* rectangle —
a rectangle with a negative anchor does not fit the quadtree's span, so the
quadtree's `insert` drops it and `get_obstacles` does not contain it. -/
theorem obstacle_round_trip_fails_negative_anchor :
    (⟨(-10, -10), (20, 20)⟩ : Rect) ∉
      ((Playground.new (500, 500)).add_obstacles ⟨(-10, -10), (20, 20)⟩).get_obstacles := by
  decide

/-- C5 (amended): for every rectangle that fits the spatial index's span
`[0, 2^16]²` — in particular regardless of the world bounds, so including
rectangles whose extent exceeds them — inserting it via `add_obstacles` and
then calling `get_obstacles` returns a list containing that rectangle with
its original anchor and size verbatim, with no clipping. -/
theorem obstacle_round_trip (p : Playground) (o : Rect)
    (h : quadtreeFits o = true) :
    o ∈ (p.add_obstacles o).get_obstacles := by
  unfold Playground.add_obstacles Playground.get_obstacles
  simp only [h, if_pos]
  exact List.mem_append_right _ (List.mem_singleton.mpr rfl)

/-- C5 (witness): the repository's own `add_obstacle_exceeding_bounds` test
case — a (1024,1024) rectangle in a (500,500) world round-trips verbatim
even though its extent exceeds the world bounds. -/
theorem obstacle_round_trip_witness :
    (⟨(0, 0), (1024, 1024)⟩ : Rect) ∈
      ((Playground.new (500, 500)).add_obstacles ⟨(0, 0), (1024, 1024)⟩).get_obstacles :=
  obstacle_round_trip (Playground.new (500, 500)) ⟨(0, 0), (1024, 1024)⟩ (by decide)

/-- C2: plan-once semantics — whenever the splines already exist,
`compute_path` is a no-op: it returns the planner state unchanged (same
pose, path and splines) and is not an error, for any playground and any
stream of sampled candidate poses. -/
theorem compute_path_plan_once (pl : Planner) (pg : Playground)
    (cands : List Pose) (h : pl.splines.isSome = true) :
    pl.compute_path pg cands = some pl := by
  unfold Planner.compute_path
  rw [if_pos h]

/-- C2 (witness): a planner whose splines are already populated is left
untouched by a second `compute_path`. -/
theorem compute_path_plan_once_witness :
    ({ pose := ⟨50, 50, 0⟩, size := (15, 30), path := pathEx,
       splines := some (build_spline pathEx) } : Planner).compute_path
      (Playground.new (800, 800)) [] =
    some { pose := ⟨50, 50, 0⟩, size := (15, 30), path := pathEx,
           splines := some (build_spline pathEx) } :=
  compute_path_plan_once _ _ _ rfl

/-- C10: calling `update_pos` before any trajectory exists (splines not yet
populated) silently does nothing, for every time `t`: the planner state —
in particular its pose — is returned unchanged, and the call is not an
error. -/
theorem update_pos_no_trajectory (pl : Planner) (t : ℝ)
    (h : pl.splines = none) :
    pl.update_pos t = some pl := by
  unfold Planner.update_pos
  rw [h]

/-- C10 (witness): a freshly constructed planner (no trajectory yet) is left
unchanged by `update_pos` at time 0. -/
theorem update_pos_no_trajectory_witness :
    (Planner.new (Playground.new (800, 800))).update_pos 0 =
      some (Planner.new (Playground.new (800, 800))) :=
  update_pos_no_trajectory _ 0 rfl

/-- C6: `is_valid_pose` — which builds its hitbox list and rejects the pose
on any colliding hitbox — agrees with the spec's direct formulation: the
axis-aligned bounding rectangle of width `|w·cos θ| + |h·sin θ|` and height
`|w·sin θ| + |h·cos θ|` (θ the heading in radians), anchored at
`(x − bw/2, y − bh/2)`, with the result being exactly the negation of the
collision predicate on that rectangle. -/
theorem is_valid_pose_matches_spec (size : Int × Int) (pg : Playground)
    (pose : Pose) :
    is_valid_pose size pg pose = is_valid_pose_spec size pg pose := by
  unfold is_valid_pose pose_hitboxes is_valid_pose_spec
  simp [List.all_cons]

/-- The interior waypoints pushed by the compaction loop form a subsequence
of `prev :: cs.dropLast` — only already-seen waypoints, never the final
one, are pushed. -/
theorem compactAux_sublist (valid : Pose → Pose → Bool) :
    ∀ (cs : List Pose) (l prev : Pose),
      List.Sublist (compactAux valid l prev cs) (prev :: cs.dropLast) := by
  intro cs
  induction cs with
  | nil => intro l prev; simp [compactAux]
  | cons c rest ih =>
    intro l prev
    unfold compactAux
    by_cases h : valid l c
    · rw [if_pos h]
      cases rest with
      | nil => simp [compactAux]
      | cons r rs =>
        rw [List.dropLast_cons₂]
        exact (ih l c).cons prev
    · rw [if_neg h]
      cases rest with
      | nil => simp [compactAux]
      | cons r rs =>
        rw [List.dropLast_cons₂]
        exact (ih prev c).cons₂ prev

/-- The compaction pass on any path with at least two waypoints: it
succeeds, preserves the first and last waypoint, returns a subsequence of
the input, and returns a two-waypoint input unchanged — for any
edge-validity predicate. -/
theorem compactPathWith_spec (valid : Pose → Pose → Bool) (path : List Pose)
    (h : 2 ≤ path.length) :
    ∃ out, compactPathWith valid path = some out ∧
      out.head? = path.head? ∧ out.getLast? = path.getLast? ∧
      List.Sublist out path ∧ (path.length = 2 → out = path) := by
  match path, h with
  | p0 :: p1 :: rest, _ =>
    refine ⟨_, rfl, rfl, ?_, ?_, ?_⟩
    · rw [show (p0 :: (compactAux valid p0 p1 rest ++
          [(p1 :: rest).getLast (List.cons_ne_nil p1 rest)])) =
          ((p0 :: compactAux valid p0 p1 rest) ++
          [(p1 :: rest).getLast (List.cons_ne_nil p1 rest)]) from rfl]
      rw [List.getLast?_concat]
      rw [List.getLast?_eq_getLast (p0 :: p1 :: rest) (by simp)]
      rw [List.getLast_cons (List.cons_ne_nil p1 rest)]
    · cases rest with
      | nil => simp [compactAux]
      | cons r rs =>
        refine List.Sublist.cons₂ p0 ?_
        have h1 := compactAux_sublist valid (r :: rs) p0 p1
        have h2 : List.Sublist
            (compactAux valid p0 p1 (r :: rs) ++
              [(p1 :: r :: rs).getLast (List.cons_ne_nil p1 (r :: rs))])
            ((p1 :: (r :: rs).dropLast) ++
              [(p1 :: r :: rs).getLast (List.cons_ne_nil p1 (r :: rs))]) :=
          h1.append (List.Sublist.refl _)
        rw [List.getLast_cons (List.cons_ne_nil r rs)] at h2
        rwa [show (p1 :: (r :: rs).dropLast) ++ [(r :: rs).getLast (List.cons_ne_nil r rs)] =
          p1 :: ((r :: rs).dropLast ++ [(r :: rs).getLast (List.cons_ne_nil r rs)]) from rfl,
          List.dropLast_append_getLast (List.cons_ne_nil r rs)] at h2
    · intro hlen
      cases rest with
      | nil => simp [compactAux, List.getLast]
      | cons r rs => simp at hlen

/-- C3: for every input path with at least two waypoints, the planner's
`compact_path` succeeds and returns a subsequence of the input whose first
and last elements equal the input's first and last waypoints; a two-waypoint
input is returned exactly unchanged. -/
theorem compact_path_endpoints (pl : Planner) (pg : Playground)
    (path : List Pose) (h : 2 ≤ path.length) :
    ∃ out, pl.compact_path pg path = some out ∧
      out.head? = path.head? ∧ out.getLast? = path.getLast? ∧
      List.Sublist out path ∧ (path.length = 2 → out = path) :=
  compactPathWith_spec (is_valid_path pl.size pg) path h

/-- C3 (witness): the two-waypoint path `pathEx` compacts to itself with its
endpoints preserved. -/
theorem compact_path_endpoints_witness :
    ∃ out, (Planner.new (Playground.new (800, 800))).compact_path
        (Playground.new (800, 800)) pathEx = some out ∧
      out.head? = pathEx.head? ∧ out.getLast? = pathEx.getLast? ∧
      List.Sublist out pathEx ∧ (pathEx.length = 2 → out = pathEx) :=
  compact_path_endpoints (Planner.new (Playground.new (800, 800)))
    (Playground.new (800, 800)) pathEx (by decide)

/-- A lookup misses exactly when the key is absent from the key list. -/
theorem alookup_eq_none (m : List (Pose × Pose)) (k : Pose) :
    alookup m k = none ↔ k ∉ m.map Prod.fst := by
  induction m with
  | nil => simp [alookup]
  | cons ab rest ih =>
    obtain ⟨a, b⟩ := ab
    by_cases h : a = k
    · subst h
      simp [alookup]
    · simp only [alookup, if_neg h, List.map_cons, List.mem_cons]
      rw [ih]
      constructor
      · intro hk hor
        rcases hor with h1 | h2
        · exact h h1.symm
        · exact hk h2
      · intro hk h2
        exact hk (Or.inr h2)

/-- A successful lookup is unaffected by appending further entries. -/
theorem alookup_append_left (m l : List (Pose × Pose)) (k : Pose) (v : Pose)
    (h : alookup m k = some v) : alookup (m ++ l) k = some v := by
  induction m with
  | nil => simp [alookup] at h
  | cons ab rest ih =>
    obtain ⟨a, b⟩ := ab
    by_cases hak : a = k
    · subst hak
      simp [alookup] at h ⊢
      exact h
    · simp only [alookup, if_neg hak] at h
      simp only [List.cons_append, alookup, if_neg hak]
      exact ih h

/-- The nearest-visited scan only ever selects one of the scanned poses. -/
theorem nearest_scan_mem {K : Type} [LinearOrder K]
    (validPath : Pose → Pose → Bool) (d : Pose → Pose → K) (cand : Pose)
    (keys : List Pose) (bound : K) (n : Pose)
    (h : (nearest_scan validPath d cand keys bound).1 = some n) : n ∈ keys := by
  unfold nearest_scan at h
  suffices hgen : ∀ (init : Option Pose × K),
      (keys.foldl (fun acc c =>
        if acc.2 ≤ d cand c ∨ validPath cand c = false then acc
        else (some c, d cand c)) init).1 = some n → init.1 = some n ∨ n ∈ keys by
    rcases hgen (none, bound) h with h1 | h2
    · simp at h1
    · exact h2
  clear h
  induction keys with
  | nil => intro init h; exact Or.inl h
  | cons c rest ih =>
    intro init h
    rw [List.foldl_cons] at h
    rcases ih _ h with h1 | h2
    · by_cases hc : init.2 ≤ d cand c ∨ validPath cand c = false
      · rw [if_pos hc] at h1
        exact Or.inl h1
      · rw [if_neg hc] at h1
        simp at h1
        subst h1
        exact Or.inr (List.mem_cons_self c rest)
    · exact Or.inr (List.mem_cons_of_mem c h2)

/-- One tree-growth step preserves the parent-map invariants: it inserts
only a not-yet-visited candidate, parented to an already-visited pose. -/
theorem rrt_step_inv {K : Type} [LinearOrder K] (validPose : Pose → Bool)
    (validPath : Pose → Pose → Bool) (d : Pose → Pose → K) (bound : K)
    (start goal : Pose) (s : RRTState) (cand : Pose)
    (h : RRTInv start s) : RRTInv start (rrt_step validPose validPath d bound goal s cand) := by
  unfold rrt_step
  by_cases hf : s.found
  · rw [if_pos hf]; exact h
  rw [if_neg hf]
  by_cases hg : (alookup s.map cand).isSome ∨ validPose cand = false
  · rw [if_pos hg]; exact h
  rw [if_neg hg]
  push_neg at hg
  have hnone : alookup s.map cand = none := by
    rcases h' : alookup s.map cand with _ | v
    · rfl
    · exact absurd (by simp [h']) hg.1
  have hnotin : cand ∉ s.map.map Prod.fst := (alookup_eq_none _ _).mp hnone
  rcases hscan : (nearest_scan validPath d cand (s.map.map Prod.fst) bound).1 with _ | n
  · exact h
  have hn : n ∈ s.map.map Prod.fst := nearest_scan_mem _ _ _ _ _ _ hscan
  obtain ⟨hstart, hnodup, hne⟩ := h
  refine ⟨?_, ?_, ?_⟩
  · exact alookup_append_left _ _ _ _ hstart
  · rw [List.map_append]
    simp only [List.map_cons, List.map_nil]
    rw [List.nodup_append]
    exact ⟨hnodup, List.nodup_singleton cand, by simpa using fun hc => hnotin hc⟩
  · intro kv hkv hkvs
    rcases List.mem_append.mp hkv with hm | hnew
    · exact hne kv hm hkvs
    · simp at hnew
      subst hnew
      intro hced
      simp only at hced
      exact hnotin (hced ▸ hn)

/-- The parent-map invariants hold after any finite stream of sampled
candidates, starting from the self-parented root. -/
theorem rrt_run_inv {K : Type} [LinearOrder K] (validPose : Pose → Bool)
    (validPath : Pose → Pose → Bool) (d : Pose → Pose → K) (bound : K)
    (start goal : Pose) (cands : List Pose) :
    RRTInv start (rrt_run validPose validPath d bound start goal cands) := by
  unfold rrt_run
  have hinit : RRTInv start ⟨[(start, start)], false⟩ := by
    refine ⟨by simp [alookup], by simp, ?_⟩
    intro kv hkv hne
    simp at hkv
    subst hkv
    simp at hne
  suffices hgen : ∀ (cs : List Pose) (s : RRTState), RRTInv start s →
      RRTInv start (cs.foldl (rrt_step validPose validPath d bound goal) s) from
    hgen cands _ hinit
  intro cs
  induction cs with
  | nil => intro s hs; exact hs
  | cons c rest ih =>
    intro s hs
    rw [List.foldl_cons]
    exact ih _ (rrt_step_inv validPose validPath d bound start goal s c hs)

/-- C7: at every point of the tree search — i.e. after any finite stream of
sampled candidate poses — the visited-to-parent map contains the start pose
mapped to itself, no pose is ever inserted as a key twice (the key list is
duplicate-free), and every key other than the start maps to a pose different
from itself. -/
theorem rrt_parent_map_invariants (pl : Planner) (pg : Playground)
    (cands : List Pose) :
    alookup (pl.rrt_visited pg cands) ⟨pg.start.1, pg.start.2, 0⟩ =
        some ⟨pg.start.1, pg.start.2, 0⟩ ∧
    ((pl.rrt_visited pg cands).map Prod.fst).Nodup ∧
    ∀ kv ∈ pl.rrt_visited pg cands,
      kv.1 ≠ (⟨pg.start.1, pg.start.2, 0⟩ : Pose) → kv.1 ≠ kv.2 := by
  unfold Planner.rrt_visited
  exact rrt_run_inv (is_valid_pose pl.size pg) (is_valid_path pl.size pg)
    euclid_dist ((pg.size.1 + pg.size.2 : Int) : ℝ)
    ⟨pg.start.1, pg.start.2, 0⟩ ⟨pg.goal.1, pg.goal.2, 0⟩ cands

section SplineLemmas

variable {K : Type} [LinearOrderedField K]

/-- Unfolding equation of `clamped_sample` on a non-empty key list. -/
theorem clamped_sample_cons (kv : K × K) (rest : List (K × K)) (t : K) :
    clamped_sample (kv :: rest) t =
      match spline_sample (kv :: rest) t with
      | some v => some v
      | none =>
        if t ≤ kv.1 then some kv.2
        else if ((kv :: rest).getLast (List.cons_ne_nil kv rest)).1 ≤ t then
          some ((kv :: rest).getLast (List.cons_ne_nil kv rest)).2
        else none := rfl

/-- Interpolating at parameter 0 returns the left endpoint exactly. -/
theorem lerp_zero (a b : K) : lerp a b 0 = a := by
  simp [lerp]

/-- In a strictly key-sorted list the head key bounds every key. -/
theorem pairwise_head_le (a : K × K) (l : List (K × K))
    (hp : (a :: l).Pairwise (fun u v => u.1 < v.1)) :
    ∀ kv ∈ a :: l, a.1 ≤ kv.1 := by
  intro kv hkv
  rcases List.mem_cons.mp hkv with h1 | h2
  · rw [h1]
  · exact le_of_lt ((List.pairwise_cons.mp hp).1 kv h2)

/-- Sampling exactly at any key except the last returns that key's value:
the window test lands on the key's own window with interpolation
parameter 0. -/
theorem spline_sample_get_of_lt (keys : List (K × K))
    (hp : keys.Pairwise (fun u v => u.1 < v.1)) :
    ∀ (i : Nat) (hi : i + 1 < keys.length),
      spline_sample keys (keys.get ⟨i, Nat.lt_of_succ_lt hi⟩).1 =
        some ((keys.get ⟨i, Nat.lt_of_succ_lt hi⟩).2) := by
  induction keys with
  | nil => intro i hi; simp at hi
  | cons a tail ih =>
    intro i hi
    cases tail with
    | nil => simp at hi
    | cons b rest =>
      obtain ⟨ka, va⟩ := a
      obtain ⟨kb, vb⟩ := b
      cases i with
      | zero =>
        have hab : ka < kb := (List.pairwise_cons.mp hp).1 (kb, vb) (List.mem_cons_self _ _)
        simp only [List.get]
        unfold spline_sample
        rw [if_neg (lt_irrefl ka), if_pos hab]
        rw [sub_self, zero_div, lerp_zero]
      | succ j =>
        have hptail : ((kb, vb) :: rest).Pairwise (fun u v => u.1 < v.1) :=
          (List.pairwise_cons.mp hp).2
        have hjlt : j + 1 < ((kb, vb) :: rest).length := by
          simpa using hi
        have ht := pairwise_head_le (kb, vb) rest hptail
          (((kb, vb) :: rest).get ⟨j, Nat.lt_of_succ_lt hjlt⟩) (List.get_mem _ _ _)
        have hka : ka < kb := (List.pairwise_cons.mp hp).1 (kb, vb) (List.mem_cons_self _ _)
        have hget : ((ka, va) :: (kb, vb) :: rest).get ⟨j + 1, Nat.lt_of_succ_lt hi⟩ =
            ((kb, vb) :: rest).get ⟨j, Nat.lt_of_succ_lt hjlt⟩ := rfl
        rw [hget]
        unfold spline_sample
        rw [if_neg (not_lt.mpr (le_trans (le_of_lt hka) ht)),
          if_neg (not_lt.mpr ht)]
        exact ih hptail j hjlt

/-- `sample` finds no window at or beyond the last key (the crate returns
`None` there and `clamped_sample` falls back to the last value). -/
theorem spline_sample_ge_last (keys : List (K × K))
    (hp : keys.Pairwise (fun u v => u.1 < v.1)) (hne : keys ≠ [])
    (t : K) (ht : (keys.getLast hne).1 ≤ t) :
    spline_sample keys t = none := by
  induction keys with
  | nil => exact absurd rfl hne
  | cons a tail ih =>
    cases tail with
    | nil =>
      obtain ⟨ka, va⟩ := a
      rfl
    | cons b rest =>
      obtain ⟨ka, va⟩ := a
      obtain ⟨kb, vb⟩ := b
      have hptail : ((kb, vb) :: rest).Pairwise (fun u v => u.1 < v.1) :=
        (List.pairwise_cons.mp hp).2
      have hlast : ((ka, va) :: (kb, vb) :: rest).getLast hne =
          ((kb, vb) :: rest).getLast (List.cons_ne_nil _ _) :=
        List.getLast_cons (List.cons_ne_nil _ _)
      rw [hlast] at ht
      have hblast : kb ≤ (((kb, vb) :: rest).getLast (List.cons_ne_nil _ _)).1 :=
        pairwise_head_le (kb, vb) rest hptail _ (List.getLast_mem _)
      have hka : ka < kb := (List.pairwise_cons.mp hp).1 (kb, vb) (List.mem_cons_self _ _)
      unfold spline_sample
      rw [if_neg (not_lt.mpr (le_trans (le_of_lt hka) (le_trans hblast ht))),
        if_neg (not_lt.mpr (le_trans hblast ht))]
      exact ih hptail (List.cons_ne_nil _ _) ht

/-- Clamping below: at or below the first key the first value is returned. -/
theorem clamped_sample_low (kv : K × K) (rest : List (K × K))
    (hp : (kv :: rest).Pairwise (fun u v => u.1 < v.1))
    (t : K) (ht : t ≤ kv.1) :
    clamped_sample (kv :: rest) t = some kv.2 := by
  rcases lt_or_eq_of_le ht with hlt | heq
  · have hs : spline_sample (kv :: rest) t = none := by
      cases rest with
      | nil =>
        obtain ⟨k, v⟩ := kv
        rfl
      | cons b rs =>
        obtain ⟨k, v⟩ := kv
        obtain ⟨kb, vb⟩ := b
        unfold spline_sample
        rw [if_pos hlt]
    rw [clamped_sample_cons, hs]
    simp only [if_pos ht]
  · cases rest with
    | nil =>
      obtain ⟨k, v⟩ := kv
      rw [clamped_sample_cons]
      have hs : spline_sample [((k, v) : K × K)] t = none := rfl
      rw [hs]
      simp only [if_pos ht]
    | cons b rs =>
      have h0 := spline_sample_get_of_lt ((kv :: b :: rs)) hp 0 (by simp)
      simp only [List.get] at h0
      rw [clamped_sample_cons, heq, h0]

/-- Clamping above: at or beyond the last key the last value is returned. -/
theorem clamped_sample_high (keys : List (K × K))
    (hp : keys.Pairwise (fun u v => u.1 < v.1)) (hne : keys ≠ [])
    (t : K) (ht : (keys.getLast hne).1 ≤ t) :
    clamped_sample keys t = some (keys.getLast hne).2 := by
  have hs := spline_sample_ge_last keys hp hne t ht
  cases keys with
  | nil => exact absurd rfl hne
  | cons kv rest =>
    rw [clamped_sample_cons, hs]
    by_cases hlow : t ≤ kv.1
    · have hkvlast : kv.1 ≤ ((kv :: rest).getLast hne).1 :=
        pairwise_head_le kv rest hp _ (List.getLast_mem _)
      have : ((kv :: rest).getLast hne).1 = kv.1 := le_antisymm (le_trans ht hlow) hkvlast
      cases rest with
      | nil =>
        simp only [if_pos hlow]
        rw [show ([kv] : List (K × K)).getLast hne = kv from rfl]
      | cons b rs =>
        exfalso
        have hab : kv.1 < b.1 := (List.pairwise_cons.mp hp).1 b (List.mem_cons_self _ _)
        have hblast : b.1 ≤ ((b :: rs).getLast (List.cons_ne_nil _ _)).1 :=
          pairwise_head_le b rs (List.pairwise_cons.mp hp).2 _ (List.getLast_mem _)
        have hlast : ((kv :: b :: rs).getLast hne) = ((b :: rs).getLast (List.cons_ne_nil _ _)) :=
          List.getLast_cons (List.cons_ne_nil _ _)
        rw [hlast] at this
        exact absurd this (ne_of_gt (lt_of_lt_of_le hab hblast))
    · simp only [if_neg hlow, if_pos ht]

/-- Keyframe exactness on any strictly key-sorted list: sampling exactly at
the i-th key returns the i-th value. -/
theorem clamped_sample_get (keys : List (K × K))
    (hp : keys.Pairwise (fun u v => u.1 < v.1)) :
    ∀ (i : Nat) (hi : i < keys.length),
      clamped_sample keys (keys.get ⟨i, hi⟩).1 = some ((keys.get ⟨i, hi⟩).2) := by
  intro i hi
  by_cases hlt : i + 1 < keys.length
  · have hs := spline_sample_get_of_lt keys hp i hlt
    cases keys with
    | nil => simp at hi
    | cons kv rest =>
      rw [clamped_sample_cons, hs]
  · have hilast : i = keys.length - 1 := by omega
    cases keys with
    | nil => simp at hi
    | cons kv rest =>
      subst hilast
      have hgetlast : (kv :: rest).get ⟨(kv :: rest).length - 1, hi⟩ =
          (kv :: rest).getLast (List.cons_ne_nil _ _) := by
        rw [List.get_eq_getElem, List.getLast_eq_getElem]
      rw [hgetlast]
      exact clamped_sample_high _ hp _ _ (le_refl _)

end SplineLemmas

/-- Cumulative distances never decrease. -/
theorem euclid_dist_nonneg (a b : Pose) : 0 ≤ euclid_dist a b :=
  Real.sqrt_nonneg _

/-- The per-segment distance is strictly positive when the two poses occupy
distinct (x,y) positions. -/
theorem euclid_dist_pos (a b : Pose) (h : a.x ≠ b.x ∨ a.y ≠ b.y) :
    0 < euclid_dist a b := by
  unfold euclid_dist
  rw [Real.sqrt_pos]
  rcases h with hx | hy
  · have hne : ((a.x - b.x : Int) : ℝ) ≠ 0 :=
      Int.cast_ne_zero.mpr (sub_ne_zero_of_ne hx)
    have h1 : 0 < ((a.x - b.x : Int) : ℝ) ^ 2 := by
      rw [← sq_abs]
      exact pow_pos (abs_pos.mpr hne) 2
    nlinarith [sq_nonneg ((a.y - b.y : Int) : ℝ)]
  · have hne : ((a.y - b.y : Int) : ℝ) ≠ 0 :=
      Int.cast_ne_zero.mpr (sub_ne_zero_of_ne hy)
    have h1 : 0 < ((a.y - b.y : Int) : ℝ) ^ 2 := by
      rw [← sq_abs]
      exact pow_pos (abs_pos.mpr hne) 2
    nlinarith [sq_nonneg ((a.x - b.x : Int) : ℝ)]

/-- One key is emitted per waypoint. -/
theorem build_keys_length (f : Pose → ℝ) :
    ∀ (path : List Pose) (d : ℝ), (build_keys f path d).length = path.length := by
  intro path
  induction path with
  | nil => intro d; rfl
  | cons p tail ih =>
    intro d
    cases tail with
    | nil => rfl
    | cons q rest =>
      simp only [build_keys, List.length_cons]
      rw [ih (d + euclid_dist p q)]
      simp

/-- Every emitted key is at least the accumulated distance at entry. -/
theorem build_keys_lower (f : Pose → ℝ) :
    ∀ (path : List Pose) (d : ℝ) (kv : ℝ × ℝ), kv ∈ build_keys f path d → d ≤ kv.1 := by
  intro path
  induction path with
  | nil => intro d kv hkv; simp [build_keys] at hkv
  | cons p tail ih =>
    intro d kv hkv
    cases tail with
    | nil =>
      simp [build_keys] at hkv
      rw [hkv]
    | cons q rest =>
      simp only [build_keys, List.mem_cons] at hkv
      rcases hkv with h1 | h2
      · rw [h1]
      · exact le_trans (le_add_of_nonneg_right (euclid_dist_nonneg p q)) (ih _ _ h2)

/-- When consecutive waypoints occupy distinct (x,y) positions the emitted
keys are strictly increasing. -/
theorem build_keys_pairwise (f : Pose → ℝ)
    (path : List Pose)
    (h : path.Chain' (fun p q => p.x ≠ q.x ∨ p.y ≠ q.y)) :
    ∀ d : ℝ, (build_keys f path d).Pairwise (fun u v => u.1 < v.1) := by
  induction path with
  | nil => intro d; simp [build_keys]
  | cons p tail ih =>
    intro d
    cases tail with
    | nil => simp [build_keys]
    | cons q rest =>
      simp only [build_keys]
      rw [List.pairwise_cons]
      have hpq : p.x ≠ q.x ∨ p.y ≠ q.y := (List.chain'_cons.mp h).1
      have htail := (List.chain'_cons.mp h).2
      constructor
      · intro kv hkv
        have hlow := build_keys_lower f (q :: rest) (d + euclid_dist p q) kv hkv
        have hpos := euclid_dist_pos p q hpq
        simp only
        linarith
      · exact ih htail (d + euclid_dist p q)

/-- The i-th emitted value is the i-th waypoint's coordinate. -/
theorem build_keys_zip_snd (f : Pose → ℝ) :
    ∀ (path : List Pose) (d : ℝ) (kp : (ℝ × ℝ) × Pose),
      kp ∈ (build_keys f path d).zip path → kp.1.2 = f kp.2 := by
  intro path
  induction path with
  | nil => intro d kp hkp; simp [build_keys] at hkp
  | cons p tail ih =>
    intro d kp hkp
    cases tail with
    | nil =>
      simp [build_keys] at hkp
      rw [hkp]
    | cons q rest =>
      simp only [build_keys, List.zip_cons_cons, List.mem_cons] at hkp
      rcases hkp with h1 | h2
      · rw [h1]
      · exact ih _ kp h2

/-- One curve of the trajectory: keyframe exactness and clamping for any
path whose consecutive waypoints occupy distinct (x,y) positions. -/
theorem build_keys_exact (f : Pose → ℝ) (path : List Pose)
    (h : path.Chain' (fun p q => p.x ≠ q.x ∨ p.y ≠ q.y)) :
    (build_keys f path 0).length = path.length ∧
    (∀ kp ∈ (build_keys f path 0).zip path,
      clamped_sample (build_keys f path 0) kp.1.1 = some (f kp.2)) ∧
    (∀ (kv : ℝ × ℝ) (s : ℝ), (build_keys f path 0).head? = some kv → s ≤ kv.1 →
      clamped_sample (build_keys f path 0) s = some kv.2) ∧
    (∀ (kv : ℝ × ℝ) (s : ℝ), (build_keys f path 0).getLast? = some kv → kv.1 ≤ s →
      clamped_sample (build_keys f path 0) s = some kv.2) := by
  have hp := build_keys_pairwise f path h 0
  refine ⟨build_keys_length f path 0, ?_, ?_, ?_⟩
  · intro kp hkp
    have hsnd := build_keys_zip_snd f path 0 kp hkp
    have hmem : kp.1 ∈ build_keys f path 0 := (List.of_mem_zip hkp).1
    obtain ⟨⟨i, hilt⟩, hget⟩ := List.mem_iff_get.mp hmem
    rw [← hsnd, ← hget]
    exact clamped_sample_get _ hp i hilt
  · intro kv s hhead hle
    cases hkeys : build_keys f path 0 with
    | nil => rw [hkeys] at hhead; simp at hhead
    | cons a r =>
      rw [hkeys] at hhead hp
      simp only [List.head?_cons, Option.some.injEq] at hhead
      subst hhead
      exact clamped_sample_low a r hp s hle
  · intro kv s hlast hle
    cases hkeys : build_keys f path 0 with
    | nil => rw [hkeys] at hlast; simp at hlast
    | cons a r =>
      rw [hkeys] at hlast hp
      rw [List.getLast?_eq_getLast _ (List.cons_ne_nil a r)] at hlast
      simp only [Option.some.injEq] at hlast
      subst hlast
      exact clamped_sample_high _ hp (List.cons_ne_nil a r) s hle

/-- The example path's single segment has length exactly 100. -/
theorem dist_pathEx : euclid_dist ⟨0, 0, 0⟩ ⟨100, 0, 128⟩ = 100 := by
  unfold euclid_dist
  norm_num
  rw [show (10000 : ℝ) = 100 ^ 2 by norm_num, Real.sqrt_sq (by norm_num : (0:ℝ) ≤ 100)]

/-- The x-curve of the example path. -/
theorem keys_x : (build_spline pathEx).1 = [(0, 0), (100, 100)] := by
  simp [build_spline, build_keys, pathEx, dist_pathEx]

/-- The y-curve of the example path. -/
theorem keys_y : (build_spline pathEx).2.1 = [(0, 0), (100, 0)] := by
  simp [build_spline, build_keys, pathEx, dist_pathEx]

/-- The heading curve of the example path. -/
theorem keys_t : (build_spline pathEx).2.2 = [(0, 0), (100, 128)] := by
  simp [build_spline, build_keys, pathEx, dist_pathEx]

/-- x-curve of the example sampled at arc-length 0. -/
theorem ev1 : clamped_sample [((0:ℝ), (0:ℝ)), (100, 100)] 0 = some 0 := by
  norm_num [clamped_sample, spline_sample, lerp]

/-- x-curve of the example sampled at arc-length 50. -/
theorem ev2 : clamped_sample [((0:ℝ), (0:ℝ)), (100, 100)] 50 = some 50 := by
  norm_num [clamped_sample, spline_sample, lerp]

/-- x-curve of the example sampled at arc-length 100. -/
theorem ev3 : clamped_sample [((0:ℝ), (0:ℝ)), (100, 100)] 100 = some 100 := by
  norm_num [clamped_sample, spline_sample, lerp, List.getLast]

/-- Heading curve of the example sampled at arc-length 50. -/
theorem ev4 : clamped_sample [((0:ℝ), (0:ℝ)), (100, 128)] 50 = some 64 := by
  norm_num [clamped_sample, spline_sample, lerp]

/-- The constant y-curve of the example samples to 0 anywhere in range. -/
theorem ev_y (s : ℝ) (hs0 : (0:ℝ) ≤ s) (hs1 : s ≤ 100) :
    clamped_sample [((0:ℝ), (0:ℝ)), (100, 0)] s = some 0 := by
  rcases eq_or_lt_of_le hs1 with he | hlt
  · subst he
    norm_num [clamped_sample, spline_sample, lerp, List.getLast]
  · have h0 : ¬ s < 0 := not_lt.mpr hs0
    norm_num [clamped_sample, spline_sample, lerp, hlt, h0]

/-- Heading curve of the example sampled at arc-length 0. -/
theorem ev_t0 : clamped_sample [((0:ℝ), (0:ℝ)), (100, 128)] 0 = some 0 := by
  norm_num [clamped_sample, spline_sample, lerp]

/-- Heading curve of the example sampled at arc-length 100. -/
theorem ev_t100 : clamped_sample [((0:ℝ), (0:ℝ)), (100, 128)] 100 = some 128 := by
  norm_num [clamped_sample, spline_sample, lerp, List.getLast]

/-- C4 (counterexample): for the path `[(0,0,0°), (0,0,90°)]` — two
waypoints at the same (x,y) position — the second waypoint's cumulative
distance is 0, the same key as the first waypoint's, and sampling the
heading curve there returns 0, not the second waypoint's heading 90: the
claim's keyframe exactness fails without a distinct-positions proviso. -/
theorem build_spline_duplicate_position_fails :
    (build_spline [⟨0, 0, 0⟩, ⟨0, 0, 90⟩]).2.2 = [(0, 0), (0, 90)] ∧
    clamped_sample [((0:ℝ), (0:ℝ)), (0, 90)] 0 = some 0 ∧
    (some (0 : ℝ) ≠ some (90 : ℝ)) := by
  refine ⟨?_, ?_, by norm_num⟩
  · have hd : euclid_dist ⟨0, 0, 0⟩ ⟨0, 0, 90⟩ = 0 := by
      unfold euclid_dist
      norm_num
    simp [build_spline, build_keys, hd]
  · norm_num [clamped_sample, spline_sample, lerp]

/-- C4 (amended): for every path whose consecutive waypoints occupy
distinct (x,y) positions, each of the three curves built by `build_spline`
keys its values by cumulative Euclidean (x,y)-only distance starting at 0
(one key per waypoint), interpolates linearly, clamps outside the key
range to the nearest endpoint value, and sampling exactly at a waypoint's
cumulative distance returns that waypoint's coordinate exactly; in
particular for `[(0,0,0°), (100,0,128°)]`, sampling at arc-length 0 gives
(0,0,0), at 50 gives (50,0,64) and at 100 gives (100,0,128). -/
theorem build_spline_keyframe_exact (path : List Pose)
    (h : path.Chain' (fun p q => p.x ≠ q.x ∨ p.y ≠ q.y)) :
    (∀ cf ∈ [((build_spline path).1, fun p : Pose => (p.x : ℝ)),
             ((build_spline path).2.1, fun p : Pose => (p.y : ℝ)),
             ((build_spline path).2.2, fun p : Pose => (p.t : ℝ))],
      cf.1.length = path.length ∧
      (∀ kp ∈ cf.1.zip path, clamped_sample cf.1 kp.1.1 = some (cf.2 kp.2)) ∧
      (∀ (kv : ℝ × ℝ) (s : ℝ), cf.1.head? = some kv → s ≤ kv.1 →
        clamped_sample cf.1 s = some kv.2) ∧
      (∀ (kv : ℝ × ℝ) (s : ℝ), cf.1.getLast? = some kv → kv.1 ≤ s →
        clamped_sample cf.1 s = some kv.2)) ∧
    clamped_sample (build_spline pathEx).1 0 = some 0 ∧
    clamped_sample (build_spline pathEx).2.1 0 = some 0 ∧
    clamped_sample (build_spline pathEx).2.2 0 = some 0 ∧
    clamped_sample (build_spline pathEx).1 50 = some 50 ∧
    clamped_sample (build_spline pathEx).2.1 50 = some 0 ∧
    clamped_sample (build_spline pathEx).2.2 50 = some 64 ∧
    clamped_sample (build_spline pathEx).1 100 = some 100 ∧
    clamped_sample (build_spline pathEx).2.1 100 = some 0 ∧
    clamped_sample (build_spline pathEx).2.2 100 = some 128 := by
  refine ⟨?_, ?_, ?_, ?_, ?_, ?_, ?_, ?_, ?_, ?_⟩
  · intro cf hcf
    simp only [List.mem_cons, List.not_mem_nil, or_false] at hcf
    rcases hcf with h1 | h2 | h3
    · subst h1
      exact build_keys_exact _ path h
    · subst h2
      exact build_keys_exact _ path h
    · subst h3
      exact build_keys_exact _ path h
  · rw [keys_x]; exact ev1
  · rw [keys_y]; exact ev_y 0 (by norm_num) (by norm_num)
  · rw [keys_t]; exact ev_t0
  · rw [keys_x]; exact ev2
  · rw [keys_y]; exact ev_y 50 (by norm_num) (by norm_num)
  · rw [keys_t]; exact ev4
  · rw [keys_x]; exact ev3
  · rw [keys_y]; exact ev_y 100 (by norm_num) (by norm_num)
  · rw [keys_t]; exact ev_t100

/-- C4 (witness): the amended theorem applied to the example path, whose
two waypoints occupy distinct positions. -/
theorem build_spline_keyframe_exact_witness :
    (build_spline pathEx).1.length = pathEx.length ∧
    clamped_sample (build_spline pathEx).2.2 50 = some 64 :=
  ⟨((build_spline_keyframe_exact pathEx (List.chain'_pair.mpr (by decide))).1
      ((build_spline pathEx).1, fun p : Pose => (p.x : ℝ)) (List.mem_cons_self _ _)).1,
    (build_spline_keyframe_exact pathEx (List.chain'_pair.mpr (by decide))).2.2.2.2.2.2.1⟩

/-- `popMin` returns `none` exactly on the empty frontier. -/
theorem popMin_eq_none {α : Type} (f : α → Int) (l : List α) :
    popMin f l = none ↔ l = [] := by
  cases l with
  | nil => simp [popMin]
  | cons x xs =>
    simp only [popMin]
    rcases h : popMin f xs with _ | yr
    · simp
    · obtain ⟨y, rest⟩ := yr
      by_cases hc : f y < f x
      · simp [hc]
      · simp [hc]

/-- The popped frontier entry minimizes the priority. -/
theorem popMin_min {α : Type} (f : α → Int) :
    ∀ (l : List α) (x : α) (rest : List α), popMin f l = some (x, rest) →
      ∀ y ∈ l, f x ≤ f y := by
  intro l
  induction l with
  | nil => intro x rest h; simp [popMin] at h
  | cons a as ih =>
    intro x rest h y hy
    rcases hpop : popMin f as with _ | br
    · simp only [popMin, hpop, Option.some.injEq, Prod.mk.injEq] at h
      have has : as = [] := (popMin_eq_none f as).mp hpop
      subst has
      simp only [List.mem_singleton] at hy
      rw [hy, ← h.1]
    · obtain ⟨b, rest2⟩ := br
      simp only [popMin, hpop] at h
      by_cases hc : f b < f a
      · rw [if_pos hc] at h
        simp only [Option.some.injEq, Prod.mk.injEq] at h
        obtain ⟨hx, hrest⟩ := h
        subst hx
        rcases List.mem_cons.mp hy with h1 | h2
        · rw [h1]; exact le_of_lt hc
        · exact ih b rest2 hpop y h2
      · rw [if_neg hc] at h
        simp only [Option.some.injEq, Prod.mk.injEq] at h
        obtain ⟨hx, hrest⟩ := h
        subst hx
        rcases List.mem_cons.mp hy with h1 | h2
        · rw [h1]
        · exact le_trans (not_lt.mp hc) (ih b rest2 hpop y h2)

/-- The heuristic of a pose to itself is 0. -/
theorem grid_heuristic_self (turn : Int) (p : Pose) : grid_heuristic turn p p = 0 := by
  unfold grid_heuristic
  norm_num [rtrunc]

/-- C8: the grid-search strategy (modelled from the spec, §4.4): (i) each
pose expands exactly the four successors — forward drive, backward drive
(the same translation negated), turn-right, turn-left — each present iff it
passes the pose-validity check; (ii) the frontier entry popped by the search
minimizes true step count plus the Euclidean-plus-angular heuristic over
the whole frontier (best-first order); (iii) when the popped pose is not
yet finalized and its heuristic distance to the goal falls under the
threshold, the search terminates with a reconstructed path starting at the
start pose. -/
theorem grid_search_properties :
    (∀ (valid : Pose → Bool) (dist turn : Int) (p q : Pose),
        q ∈ grid_successors valid dist turn p ↔
          ((q = grid_drive dist p ∨ q = grid_drive (-dist) p ∨
            q = ⟨p.x, p.y, p.t + turn⟩ ∨ q = ⟨p.x, p.y, p.t - turn⟩) ∧ valid q = true)) ∧
    (∀ (turn : Int) (goal : Pose) (frontier : List (Int × Pose × Pose))
        (e : Int × Pose × Pose) (rest : List (Int × Pose × Pose)),
        popMin (fun e0 => e0.1 + grid_heuristic turn e0.2.1 goal) frontier = some (e, rest) →
        ∀ e1 ∈ frontier,
          e.1 + grid_heuristic turn e.2.1 goal ≤ e1.1 + grid_heuristic turn e1.2.1 goal) ∧
    (∀ (valid : Pose → Bool) (dist turn tol : Int) (goal start : Pose) (fuel : Nat)
        (frontier : List (Int × Pose × Pose)) (parents : List (Pose × Pose))
        (e : Int × Pose × Pose) (rest : List (Int × Pose × Pose)),
        popMin (fun e0 => e0.1 + grid_heuristic turn e0.2.1 goal) frontier = some (e, rest) →
        alookup parents e.2.1 = none →
        grid_heuristic turn e.2.1 goal < tol →
        ∃ path, grid_search valid dist turn tol goal start (fuel + 1) frontier parents =
            some path ∧ path.head? = some start) := by
  refine ⟨?_, ?_, ?_⟩
  · intro valid dist turn p q
    unfold grid_successors grid_moves
    rw [List.mem_filter]
    simp only [List.mem_cons, List.not_mem_nil, or_false]
  · intro turn goal frontier e rest hpop e1 he1
    exact popMin_min _ frontier e rest hpop e1 he1
  · intro valid dist turn tol goal start fuel frontier parents e rest hpop hlook hh
    refine ⟨grid_reconstruct (parents ++ [(e.2.1, e.2.2)]) start
      (parents.length + 1) e.2.1, ?_, ?_⟩
    · simp only [grid_search, hpop, hlook, Option.isSome_none, Bool.false_eq_true,
        if_false, if_pos hh]
    · simp [grid_reconstruct, List.reverse_append]

/-- C8 (witness): with the goal itself as the only frontier entry, the
search pops it (minimally), sees its heuristic 0 under the tolerance, and
returns a path starting at the start pose. -/
theorem grid_search_properties_witness :
    ∃ path, grid_search (fun _ => true) 10 10 1 ⟨0, 0, 0⟩ ⟨5, 5, 0⟩ 1
        [(0, ⟨0, 0, 0⟩, ⟨0, 0, 0⟩)] [] = some path ∧
      path.head? = some (⟨5, 5, 0⟩ : Pose) :=
  grid_search_properties.2.2 (fun _ => true) 10 10 1 ⟨0, 0, 0⟩ ⟨5, 5, 0⟩ 0
    [(0, ⟨0, 0, 0⟩, ⟨0, 0, 0⟩)] [] (0, ⟨0, 0, 0⟩, ⟨0, 0, 0⟩) [] rfl rfl
    (by rw [grid_heuristic_self]; norm_num)
